import Mathlib

/-!
Shallow embedding of the Local-LLM chat pipeline (TypeScript sources under
`src/src/chat` and the unnamed parts) and verification of its specification.

Conventions:
- JS strings are modelled as Lean `String` / `List Char`; JS numbers that hold
  integer counts are modelled as `Nat` (with `Int` where a JS value can go
  negative before being clamped).
- Fallible synchronous/async operations are modelled with `Except String`
  (the `String` is the JS `Error.message`).
- External collaborators (safety filter, context manager, spec provider,
  storage, LLM HTTP endpoint, clock, id generator) are modelled as oracle
  functions bundled in an environment structure.
-/

namespace LocalLLM

/-- JS `x || d` for an optional numeric parameter: `0` is falsy, so a present
`0` still selects the default (source: `maxTokens || this.maxTokens`). -/
def jsOrDefault (o : Option Nat) (d : Nat) : Nat :=
  match o with
  | none => d
  | some v => if v = 0 then d else v

/-! ## Data model (src/src/chat/types/index.ts) -/

structure GitInfo where
  branch : String
  hasChanges : Bool
  recentCommits : Option (List String) := none
deriving DecidableEq, Repr

structure SpecInfo where
  currentSpec : Option String := none
  phase : Option String := none
  context : Option String := none
deriving DecidableEq, Repr

structure ChatContext where
  activeFile : Option String := none
  selectedText : Option String := none
  workspaceFiles : Option (List String) := none
  gitStatus : Option GitInfo := none
  specContext : Option SpecInfo := none
deriving DecidableEq, Repr

inductive MessageRole where
  | user
  | assistant
deriving DecidableEq, Repr

/-- The metadata bag `MessageMetadata`; `truncated` is the extra field written by
`TokenManager.truncateMessage` via object spread. -/
structure MessageMetadata where
  tokenCount : Option Nat := none
  processingTime : Option Nat := none
  model : Option String := none
  truncated : Option Bool := none
deriving DecidableEq, Repr

structure ChatMessage where
  id : String
  role : MessageRole
  content : String
  timestamp : Nat
  context : Option ChatContext := none
  metadata : Option MessageMetadata := none
deriving DecidableEq, Repr

inductive ErrorType where
  | network
  | auth
  | validation
  | system
deriving DecidableEq, Repr

structure ErrorInfo where
  type : ErrorType
  message : String
  code : Option String := none
  retryable : Bool
deriving DecidableEq, Repr

inductive ActionType where
  | create_file
  | modify_file
  | run_command
  | create_spec
deriving DecidableEq, Repr

/-- The source types `payload` as `any`; the two payload shapes actually
constructed by `ChatManager.extractActions` are `{content, language}` and `{}`. -/
inductive ActionPayload where
  | file (content : String) (language : String)
  | empty
deriving DecidableEq, Repr

structure ChatAction where
  type : ActionType
  payload : ActionPayload
  description : String
deriving DecidableEq, Repr

structure ChatResponse where
  message : ChatMessage
  suggestions : Option (List String) := none
  actions : Option (List ChatAction) := none
  error : Option ErrorInfo := none
deriving DecidableEq, Repr

structure ValidationResult where
  isValid : Bool
  errors : List String
  warnings : List String
deriving DecidableEq, Repr

/-! ## TokenManager (src/unnamed/part_002) -/

structure OptimizationResult where
  optimizedPrompt : String
  removedContent : List String
  tokensSaved : Nat
deriving DecidableEq, Repr

structure TokenManager where
  maxTokens : Nat
  contextWindow : Nat
deriving DecidableEq, Repr

namespace TokenManager

/-- The constant `CHARS_PER_TOKEN = 4`. -/
def CHARS_PER_TOKEN : Nat := 4

/-- Source `estimateTokens(text)`: `if (!text) return 0; return Math.ceil(text.length / 4)`. -/
def estimateTokens (_tm : TokenManager) (text : String) : Nat :=
  if text.isEmpty then 0 else (text.length + CHARS_PER_TOKEN - 1) / CHARS_PER_TOKEN

/-- Source `calculateMessageTokens(message)`: 4 base tokens + content tokens +
context tokens (active file, selected text, workspace files). -/
def calculateMessageTokens (tm : TokenManager) (message : ChatMessage) : Nat :=
  let base := 4 + tm.estimateTokens message.content
  match message.context with
  | none => base
  | some ctx =>
      let t1 := match ctx.activeFile with
        | some f => tm.estimateTokens f
        | none => 0
      let t2 := match ctx.selectedText with
        | some s => tm.estimateTokens s
        | none => 0
      let t3 := match ctx.workspaceFiles with
        | some fs => fs.foldl (fun sum f => sum + tm.estimateTokens f) 0
        | none => 0
      base + t1 + t2 + t3

/-- Source `truncateMessage(message, maxTokens)`: returns `null` when there is not
enough room, the message itself when its content already fits, and otherwise a
copy with content cut to `maxContentLength - 20` characters plus a
`... [truncated]` marker and `metadata.truncated = true`. -/
def truncateMessage (_tm : TokenManager) (message : ChatMessage) (maxTokens : Nat) :
    Option ChatMessage :=
  let baseTokens := 10
  let availableContentTokens := maxTokens - baseTokens
  if availableContentTokens < 20 then none
  else
    let maxContentLength := availableContentTokens * CHARS_PER_TOKEN
    if message.content.length ≤ maxContentLength then some message
    else
      let truncatedContent :=
        String.mk (message.content.data.take (maxContentLength - 20)) ++ "... [truncated]"
      let oldMeta := message.metadata.getD {}
      some { message with
        content := truncatedContent,
        metadata := some { oldMeta with truncated := some true } }

/-- The backwards walk of `optimizeConversationHistory` (the `for` loop over
`remainingMessages` from the last index down to 0), taking the remaining
messages already reversed (newest first). -/
def histLoop (tm : TokenManager) (maxTokens : Nat) :
    List ChatMessage → Nat → List ChatMessage → List ChatMessage
  | [], _, acc => acc
  | m :: rest, total, acc =>
      let messageTokens := tm.calculateMessageTokens m
      if total + messageTokens ≤ maxTokens then
        histLoop tm maxTokens rest (total + messageTokens) (m :: acc)
      else
        let availableTokens := maxTokens - total
        if availableTokens > 50 then
          match tm.truncateMessage m availableTokens with
          | some t => t :: acc
          | none => acc
        else acc

/-- Source `optimizeConversationHistory(messages, maxHistoryTokens?)`.  The default
budget is `Math.floor(contextWindow * 0.7)`, modelled as `contextWindow * 7 / 10`
(the claims under verification always pass an explicit budget). -/
def optimizeConversationHistory (tm : TokenManager) (messages : List ChatMessage)
    (maxHistoryTokens : Option Nat) : List ChatMessage :=
  let maxTokens := jsOrDefault maxHistoryTokens (tm.contextWindow * 7 / 10)
  match messages.getLast? with
  | none => messages
  | some lastMessage =>
      tm.histLoop maxTokens messages.dropLast.reverse
        (tm.calculateMessageTokens lastMessage) [lastMessage]

end TokenManager

/-! ### Strategy-2 text reductions (`removeNonEssentialContent`)

The three regex passes of the source are modelled on `List Char`:
`/^[ \t]*(?:#|\/\/).*$/gm` (comment lines), `/\n\s*\n\s*\n/g → "\n\n"` and
`/[ \t]+/g → " "` (whitespace), `/^import.*?;$/gm` (import lines).  The `m`
flag makes `^`/`$` line anchors, so the line-based passes replace whole
matching lines with the empty string, leaving the newline separators. -/

def isSpaceTab (c : Char) : Bool := c = ' ' ∨ c = '\t'

/-- The characters matched by the JS `\s` class (ASCII part; the inputs of
this development contain no Unicode whitespace). -/
def isJsWs (c : Char) : Bool :=
  c = ' ' ∨ c = '\t' ∨ c = '\n' ∨ c = '\r' ∨ c = '\x0b' ∨ c = '\x0c'

/-- Split on `'\n'`, as `String.prototype.split('\n')`: `n` separators give
`n + 1` parts. -/
def splitNl : List Char → List (List Char)
  | [] => [[]]
  | c :: rest =>
      if c = '\n' then [] :: splitNl rest
      else
        match splitNl rest with
        | [] => [[c]]
        | l :: ls => (c :: l) :: ls

def joinNl (lines : List (List Char)) : List Char :=
  (lines.intersperse ['\n']).flatten

/-- A line matched by `/^[ \t]*(?:#|\/\/).*$/`. -/
def isCommentLine (l : List Char) : Bool :=
  match l.dropWhile isSpaceTab with
  | '#' :: _ => true
  | '/' :: '/' :: _ => true
  | _ => false

/-- A line matched by `/^import.*?;$/` (`.` does not cross the line, and the
`$` anchor forces the match to end at the line's final `';'`): the line starts
with `import` and ends with `';'`. -/
def isImportLine (l : List Char) : Bool :=
  ("import".data.isPrefixOf l) ∧ l.getLast? = some ';'

/-- The pass `optimized.replace(/[ \t]+/g, ' ')`: each maximal run of spaces/tabs
becomes a single space.  The flag records whether the previous character
belonged to a run. -/
def collapseSpaces : Bool → List Char → List Char
  | _, [] => []
  | inRun, c :: rest =>
      if isSpaceTab c then
        if inRun then collapseSpaces true rest
        else ' ' :: collapseSpaces true rest
      else c :: collapseSpaces false rest

/-- The pass `optimized.replace(/\n\s*\n\s*\n/g, '\n\n')`: with greedy backtracking the
match starts at a `'\n'` and extends to the last `'\n'` of the maximal
whitespace run around it, provided the run holds at least three newlines; the
matched span becomes `"\n\n"` and scanning resumes after it.  Fuel-indexed
(each step consumes at least one character, so `length + 1` fuel suffices). -/
def collapseNewlineRuns : Nat → List Char → List Char
  | 0, s => s
  | fuel + 1, s =>
      match s with
      | [] => []
      | c :: rest =>
          if c = '\n' then
            let run := rest.takeWhile isJsWs
            if 2 ≤ run.count '\n' then
              match run.reverse.findIdx? (fun x => x = '\n') with
              | some rIdx =>
                  let j := run.length - 1 - rIdx
                  '\n' :: '\n' :: collapseNewlineRuns fuel (rest.drop (j + 1))
              | none => c :: collapseNewlineRuns fuel rest
            else c :: collapseNewlineRuns fuel rest
          else c :: collapseNewlineRuns fuel rest

/-- JS `s.substring(start)` with one argument: `start` is clamped to
`[0, s.length]`. -/
def jsSubstringFrom (s : String) (start : Int) : String :=
  String.mk (s.data.drop start.toNat)

namespace TokenManager

/-- Source `removeNonEssentialContent(context, tokensToSave, removedContent)`:
applies the comment, whitespace and import passes in order, each guarded by
`tokensSaved < tokensToSave`; returns the optimized text together with the
extended `removedContent` log (the source mutates the array in place). -/
def removeNonEssentialContent (tm : TokenManager) (context : List Char)
    (tokensToSave : Int) (removedContent : List String) : List Char × List String :=
  -- Remove comments (lines starting with # or //)
  let lines := splitNl context
  let comments := lines.filter isCommentLine
  let step1 :=
    if comments ≠ [] ∧ (0 : Int) < tokensToSave then
      let optimized := joinNl (lines.map fun l => if isCommentLine l then [] else l)
      let commentTokens :=
        comments.foldl (fun sum c => sum + tm.estimateTokens (String.mk c)) 0
      let k := comments.length
      (optimized, removedContent ++ [s!"Removed {k} comment lines"], (commentTokens : Int))
    else (context, removedContent, (0 : Int))
  -- Remove excessive whitespace
  let step2 :=
    if step1.2.2 < tokensToSave then
      let beforeWhitespace := step1.1.length
      let o := collapseSpaces false (collapseNewlineRuns (step1.1.length + 1) step1.1)
      let afterWhitespace := o.length
      let whitespaceTokens :=
        tm.estimateTokens (String.mk (List.replicate (beforeWhitespace - afterWhitespace) ' '))
      let log := if beforeWhitespace ≠ afterWhitespace
        then step1.2.1 ++ ["Compressed whitespace"] else step1.2.1
      (o, log, step1.2.2 + (whitespaceTokens : Int))
    else step1
  -- Remove import statements if still need to save tokens
  if step2.2.2 < tokensToSave then
    let lines2 := splitNl step2.1
    let imports := lines2.filter isImportLine
    if imports ≠ [] then
      let o := joinNl (lines2.map fun l => if isImportLine l then [] else l)
      let k := imports.length
      (o, step2.2.1 ++ [s!"Removed {k} import statements"])
    else (step2.1, step2.2.1)
  else (step2.1, step2.2.1)

/-- Source `optimizePrompt(prompt, context, maxTokens?)` (part_002 lines 53-96).
Strategy 1 truncates the context via
`substring(contextTokens - targetContextLength)` — note the source subtracts a
character count from a token count here — and strategy 2 is
`removeNonEssentialContent`.  Both branches return the untouched `prompt`. -/
def optimizePrompt (tm : TokenManager) (prompt context : String)
    (maxTokens : Option Nat) : OptimizationResult :=
  let targetTokens := jsOrDefault maxTokens tm.maxTokens
  let currentTokens := tm.estimateTokens (prompt ++ context)
  if currentTokens ≤ targetTokens then
    { optimizedPrompt := prompt, removedContent := [], tokensSaved := 0 }
  else
    let tokensToSave : Int := (currentTokens : Int) - (targetTokens : Int)
    -- Strategy 1: truncate context (keeping a suffix of it)
    let stage1 :=
      if 0 < tokensToSave then
        let contextTokens := tm.estimateTokens context
        if tokensToSave < (contextTokens : Int) then
          let targetContextLength : Int := ((contextTokens : Int) - tokensToSave) * 4
          let truncated := jsSubstringFrom context ((contextTokens : Int) - targetContextLength)
          let removedChars := context.length - truncated.length
          let tokensToSave' :=
            tokensToSave - ((contextTokens : Int) - (tm.estimateTokens truncated : Int))
          (truncated, [s!"Truncated {removedChars} characters from context"], tokensToSave')
        else (context, ([] : List String), tokensToSave)
      else (context, ([] : List String), tokensToSave)
    -- Strategy 2: remove less important sections
    let stage2 :=
      if 0 < stage1.2.2 then
        tm.removeNonEssentialContent stage1.1.data stage1.2.2 stage1.2.1
      else (stage1.1.data, stage1.2.1)
    let finalTokens := tm.estimateTokens (prompt ++ String.mk stage2.1)
    { optimizedPrompt := prompt,
      removedContent := stage2.2,
      tokensSaved := currentTokens - finalTokens }

end TokenManager

/-! ## LLMService.optimizeForTokenLimits

Source: the `LLMService` module concatenated into
src/src/chat/services/SafetyFilter.ts, lines 613-645. -/

structure TokenInfo where
  original : Nat
  optimized : Nat
  saved : Int
deriving DecidableEq, Repr

structure OptimizeForTokenLimitsResult where
  optimizedPrompt : String
  optimizedContext : String
  optimizedHistory : List ChatMessage
  tokenInfo : TokenInfo
deriving DecidableEq, Repr

/-- Source `LLMService.optimizeForTokenLimits(prompt, context, history)`
(SafetyFilter.ts 613-645): optimizes the history then the prompt/context
via the `TokenManager` (both with their default budgets), returns the
`optimizedPrompt` of `optimizePrompt` together with the *input* context
(the `OptimizationResult` carries no context field), and token totals that
add the summed `calculateMessageTokens` of the input resp. optimized
history. -/
def optimizeForTokenLimits (tm : TokenManager) (prompt context : String)
    (history : List ChatMessage) : OptimizeForTokenLimitsResult :=
  let optimizedHistory := tm.optimizeConversationHistory history none
  let optimization := tm.optimizePrompt prompt context none
  let originalTokens := tm.estimateTokens (prompt ++ context)
    + history.foldl (fun sum msg => sum + tm.calculateMessageTokens msg) 0
  let optimizedTokens := tm.estimateTokens (optimization.optimizedPrompt ++ context)
    + optimizedHistory.foldl (fun sum msg => sum + tm.calculateMessageTokens msg) 0
  { optimizedPrompt := optimization.optimizedPrompt
    optimizedContext := context
    optimizedHistory := optimizedHistory
    tokenInfo :=
      { original := originalTokens
        optimized := optimizedTokens
        saved := (originalTokens : Int) - (optimizedTokens : Int) } }

/-! ## Retry loop (ChatManager.generateResponseWithRetry, part_001 165-182) -/

/-- The `for (let attempt = 1; attempt <= retryAttempts; attempt++)` loop,
abstracted over the per-attempt operation.  `rem` counts the remaining
allowed attempts (the running attempt number is `total - rem` when matching
`rem + 1`).  Besides the final result it returns the performed backoff delays
and the list of attempt numbers actually tried. -/
def retryAux (op : Nat → Except String α) (retryDelay total : Nat) :
    Nat → Option String → List Nat → List Nat → Except String α × List Nat × List Nat
  | 0, lastError, delays, calls =>
      (.error (lastError.getD "All retry attempts failed"), delays, calls)
  | rem + 1, _lastError, delays, calls =>
      let attempt := total - rem
      match op attempt with
      | .ok a => (.ok a, delays, calls ++ [attempt])
      | .error e =>
          if attempt < total then
            retryAux op retryDelay total rem (some e)
              (delays ++ [retryDelay * attempt]) (calls ++ [attempt])
          else
            retryAux op retryDelay total rem (some e) delays (calls ++ [attempt])

/-- Source `generateResponseWithRetry`: run `op` up to `retryAttempts` times, sleeping
`retryDelay * attempt` between a failed attempt and the next, rethrowing the
last error after the final failure. -/
def generateResponseWithRetry (retryAttempts retryDelay : Nat)
    (op : Nat → Except String α) : Except String α × List Nat × List Nat :=
  retryAux op retryDelay retryAttempts retryAttempts none [] []

/-! ## Response post-processing (part_001 287-351) -/

/-- Substring search on character lists. -/
def listContains (needle : List Char) : List Char → Bool
  | [] => needle.isEmpty
  | c :: rest => needle.isPrefixOf (c :: rest) || listContains needle rest

/-- JS `hay.includes(needle)`. -/
def containsStr (hay needle : String) : Bool :=
  listContains needle.data hay.data

/-- JS `\w` word characters. -/
def isWordChar (c : Char) : Bool := c.isAlphanum ∨ c = '_'

/-- Split a text at the first occurrence of the fence `"``` "` (three
backticks), returning the part before it and the part after it. -/
def splitAtFence : List Char → Option (List Char × List Char)
  | [] => none
  | c :: rest =>
      if c = '`' ∧ rest.take 2 = ['`', '`'] then some ([], rest.drop 2)
      else (splitAtFence rest).map fun p => (c :: p.1, p.2)

/-- The successive matches of `/(three backticks)(\w+)?\n([\s\S]*?)(three
backticks)/g` as driven by the `while (exec)` loop: at each position, an
opening fence followed by an optional word run, a newline, and the lazily
shortest body up to a closing fence; on a match, scanning resumes after the
closing fence, otherwise it advances one character.  Fuel-indexed (every step
consumes at least one character). -/
def scanBlocks (extractFuel : Nat) (s : List Char) : List (Option (List Char) × List Char) :=
  match extractFuel, s with
  | 0, _ => []
  | _ + 1, [] => []
  | fuel + 1, c :: rest =>
      if c = '`' ∧ rest.take 2 = ['`', '`'] then
        let after3 := rest.drop 2
        let w := after3.takeWhile isWordChar
        match after3.dropWhile isWordChar with
        | '\n' :: body0 =>
            match splitAtFence body0 with
            | some (code, after2) =>
                (if w = [] then none else some w, code) :: scanBlocks fuel after2
            | none => scanBlocks fuel rest
        | _ => scanBlocks fuel rest
      else scanBlocks fuel rest

/-- The ordered `(language?, code)` pairs of the fenced code blocks of
`content`, as matched by `ChatManager.extractActions`'s regex loop. -/
def codeBlocks (content : String) : List (Option String × String) :=
  (scanBlocks (content.length + 1) content.data).map fun b =>
    (b.1.map String.mk, String.mk b.2)

/-- The `content.toLowerCase().includes('create') && includes('spec')` test. -/
def mentionsCreateSpec (content : String) : Bool :=
  containsStr content.toLower "create" ∧ containsStr content.toLower "spec"

/-- The `create_file` action pushed for one matched block. -/
def mkCreateFileAction (b : Option String × String) : ChatAction :=
  let lang := b.1.getD ""
  { type := .create_file
    payload := .file b.2 lang
    description := s!"Create {lang} file with this code" }

/-- Source `ChatManager.extractActions` (part_001 320-351), on the message content:
one `create_file` action per fenced block with a language tag and more than 50
characters of code, in match order, then a `create_spec` action when the text
mentions both "create" and "spec" case-insensitively. -/
def extractActions (content : String) : List ChatAction :=
  let actions := (codeBlocks content).foldl
    (fun acc b =>
      if 50 < b.2.length ∧ b.1.isSome then acc ++ [mkCreateFileAction b] else acc) []
  if mentionsCreateSpec content then
    actions ++ [{ type := .create_spec, payload := .empty,
                  description := "Create a new feature spec" }]
  else actions

/-- Source `ChatManager.generateSuggestions` (part_001 287-318). -/
def generateSuggestions (assistantMessage : ChatMessage) : List String :=
  let content := assistantMessage.content.toLower
  let s1 := if containsStr content "code" ∨ containsStr content "function" then
      ["Explain this code", "Add error handling", "Write tests for this"] else []
  let s2 := if containsStr content "error" ∨ containsStr content "bug" then
      ["How can I debug this?", "Show me the stack trace", "What are common causes?"] else []
  let s3 := if containsStr content "spec" ∨ containsStr content "requirements" then
      ["Create a new spec", "Update the design", "Generate tasks"] else []
  let suggestions := s1 ++ s2 ++ s3
  let suggestions := if suggestions.length < 3 then
      suggestions ++ ["Can you elaborate?", "Show me an example", "What are the alternatives?"]
    else suggestions
  suggestions.take 3

/-! ## Stream accumulation and the generation call

Source: `LLMService.generateResponse` (the LLMService module concatenated
into src/src/chat/services/SafetyFilter.ts, lines 506-556).  The read loop:
buffer partial reads, `buffer.split('\n')`, hold back the popped trailing
line, skip lines that trim to the empty string, and on each `data: ` line
take `line.slice(6)`, stop on the `[DONE]` sentinel, otherwise `JSON.parse`
the payload and yield `parsed.choices?.[0]?.delta?.content` when truthy.
`JSON.parse` plus that path plus the truthiness test are abstracted into an
`extract` oracle returning `none` on malformed JSON, a missing path, or a
falsy content (the catch around the parse only logs). -/

/-- JS `line.trim() === ''` (all characters are whitespace). -/
def jsTrimEmpty (l : List Char) : Bool := l.all isJsWs

/-- JS `line.startsWith('data: ')`. -/
def isDataLine (l : List Char) : Bool := "data: ".data.isPrefixOf l

/-- Source `for (const line of lines)` body of the read loop: fragments
emitted for a batch of complete lines, and whether the `[DONE]` sentinel was
hit (`return`, stopping iteration at once). -/
def feedLines (extract : List Char → Option (List Char)) :
    List (List Char) → List (List Char) × Bool
  | [] => ([], false)
  | l :: ls =>
      if jsTrimEmpty l then feedLines extract ls
      else if isDataLine l then
        let d := l.drop 6
        if d = "[DONE]".data then ([], true)
        else
          match extract d with
          | some f =>
              let r := feedLines extract ls
              (f :: r.1, r.2)
          | none => feedLines extract ls
      else feedLines extract ls

/-- Source `while (true)` read loop (SafetyFilter.ts 522-549): each read
chunk is appended to the held-back buffer, the complete lines are processed,
and the popped trailing line (`lines.pop() || ''`) is held back; the
`[DONE]` sentinel ends iteration even if unconsumed buffered input remains;
leftover buffered input when `done` arrives is dropped. -/
def consumeStream (extract : List Char → Option (List Char)) :
    List (List Char) → List Char → List (List Char)
  | [], _buffer => []
  | chunk :: restChunks, buffer =>
      let parts := splitNl (buffer ++ chunk)
      let r := feedLines extract parts.dropLast
      if r.2 then r.1 else r.1 ++ consumeStream extract restChunks (parts.getLastD [])

/-- Source `Response`: status, statusText, and the body reads (`none` models
`response.body` being unavailable, which raises `No response body
available`). -/
structure HttpResponse where
  status : Nat
  statusText : String
  body : Option (List (List Char))

/-- JS `Response.ok`: status in the 200-299 range. -/
def httpOk (r : HttpResponse) : Bool := 200 ≤ r.status ∧ r.status < 300

/-- A thrown JS `Error` as observed by `createLLMError`: its `name` and
`message` (`name = "AbortError"` for the timeout abort; a plain
`new Error(...)` has `name = "Error"`). -/
structure JsError where
  name : String
  message : String
deriving DecidableEq, Repr

/-- Source `LLMService.createLLMError` (SafetyFilter.ts 692-710) on an
`Error` instance: the timeout abort and any message containing `401`, `429`
or `500` are rewritten to fixed messages; other errors pass through. -/
def createLLMError (e : JsError) : String :=
  if e.name = "AbortError" then
    "Request timeout - the LLM service took too long to respond"
  else if containsStr e.message "401" then
    "Authentication failed - please check your API key"
  else if containsStr e.message "429" then
    "Rate limit exceeded - please try again later"
  else if containsStr e.message "500" then
    "LLM service is temporarily unavailable"
  else e.message

/-- Source `LLMService.generateResponse` (SafetyFilter.ts 506-556): a failed
`makeStreamingRequest` or a non-ok status or a missing body throws before
any fragment is yielded, and every thrown error is routed through
`createLLMError`; otherwise the stream is consumed as in `consumeStream`
(whose per-line parse failures are caught inside the loop). -/
def generateResponseStream (extract : List Char → Option (List Char))
    (fetchResult : Except JsError HttpResponse) : Except String (List (List Char)) :=
  match fetchResult with
  | .error e => .error (createLLMError e)
  | .ok resp =>
      if httpOk resp then
        match resp.body with
        | none => .error (createLLMError ⟨"Error", "No response body available"⟩)
        | some chunks => .ok (consumeStream extract chunks [])
      else
        let st := resp.status
        let tx := resp.statusText
        .error (createLLMError ⟨"Error", s!"HTTP {st}: {tx}"⟩)

/-! ## ChatManager (part_001) -/

structure ChatManagerConfig where
  maxHistoryLength : Nat
  enableContextGathering : Bool
  enableSafetyFilter : Bool
  retryAttempts : Nat
  retryDelay : Nat
deriving DecidableEq, Repr

/-- The external collaborators of `ChatManager`, as oracles.  `mkId`/`now`
model `generateMessageId` and `Date.now` (indexed by a per-invocation step so
distinct messages may get distinct ids); `getRelevantContext`,
`generateChunks` and `procTime` are indexed by the retry attempt number. -/
structure ChatEnv where
  tm : TokenManager
  validateRequest : String → ValidationResult
  sanitizeResponse : String → String
  getCurrentContext : Except String ChatContext
  getRelevantContext : Nat → String → Except String String
  generateChunks : Nat → String → String → Except String (List String)
  saveFails : Bool
  mkId : Nat → String
  now : Nat → Nat
  procTime : Nat → Nat

/-- The state `ChatManager`/`ConversationStateManager` mutate during
`sendMessage`: the processing flag and the current conversation's message
list (`none` models `currentConversation = null`; the ledger's ancillary
bookkeeping — title, timestamps, token totals — is not observed by any
claim's path and is omitted). -/
structure MgrState where
  isProcessing : Bool
  conversation : Option (List ChatMessage)
deriving DecidableEq, Repr

/-- Source `createUserMessage` (messageUtils.ts), with id/timestamp from the env. -/
def createUserMessageAt (env : ChatEnv) (k : Nat) (content : String) : ChatMessage :=
  { id := env.mkId k, role := .user, content := content, timestamp := env.now k }

/-- Source `createAssistantMessage` (messageUtils.ts). -/
def createAssistantMessageAt (env : ChatEnv) (k : Nat) (content : String) : ChatMessage :=
  { id := env.mkId k, role := .assistant, content := content, timestamp := env.now k }

/-- Source `ChatManager.createErrorResponse` (part_001 355-366): an apology-style
assistant message plus an `ErrorInfo` that is retryable exactly for the
`network` and `system` classes. -/
def createErrorResponse (env : ChatEnv) (message : String) (type : ErrorType) : ChatResponse :=
  { message := createAssistantMessageAt env 0
      ("I apologize, but I encountered an error: " ++ message)
    error := some { type := type, message := message,
                    retryable := type == ErrorType.network || type == ErrorType.system } }

/-- The `{ ...currentContext, ...userMessage.context }` spread: fields present
on the user message's context win. -/
def mergeContext (cc : ChatContext) (uc : Option ChatContext) : ChatContext :=
  match uc with
  | none => cc
  | some u =>
      { activeFile := u.activeFile <|> cc.activeFile
        selectedText := u.selectedText <|> cc.selectedText
        workspaceFiles := u.workspaceFiles <|> cc.workspaceFiles
        gitStatus := u.gitStatus <|> cc.gitStatus
        specContext := u.specContext <|> cc.specContext }

/-- Source `getRecentHistory(count)`: `messages.slice(0, -1).slice(-count)` (JS
`slice(-0)` is `slice(0)`, the whole list). -/
def getRecentHistory (msgs : List ChatMessage) (count : Nat) : List ChatMessage :=
  let l := msgs.dropLast
  if count = 0 then l else l.drop (l.length - count)

/-- JS `s.substring(0, n)`. -/
def jsSubstringTo (s : String) (n : Nat) : String := String.mk (s.data.take n)

/-- Source `ChatManager.buildContextString` (part_001 229-279); the
`specContextProvider.getRelevantContext` call's failure is caught and the
section skipped. -/
def buildContextString (env : ChatEnv) (attempt : Nat) (userMessage : ChatMessage)
    (msgs : List ChatMessage) : String :=
  let base :=
    ["You are Kiro, an AI assistant integrated into the Kiro IDE.",
     "You help developers with code generation, debugging, explanations, and project planning.",
     ""]
  let ctxSections :=
    match userMessage.context with
    | none => []
    | some ctx =>
        (match ctx.activeFile with
         | some f => [s!"**Active File:** {f}"]
         | none => []) ++
        (match ctx.selectedText with
         | some sel => ["**Selected Text:**", "```", sel, "```", ""]
         | none => []) ++
        (match ctx.gitStatus with
         | some g =>
             let br := g.branch
             let ch := if g.hasChanges then "Yes" else "No"
             [s!"**Git Status:** Branch: {br}, Changes: {ch}"]
         | none => [])
  let specSections :=
    match env.getRelevantContext attempt userMessage.content with
    | .ok rc => if rc.trim.length > 0 then ["**Project Context:**", rc, ""] else []
    | .error _ => []
  let recent := getRecentHistory msgs 5
  let histSections :=
    if recent.length > 0 then
      ["**Recent Conversation:**"] ++
      recent.map (fun m =>
        let roleStr := match m.role with | .user => "user" | .assistant => "assistant"
        let ell := if m.content.length > 200 then "..." else ""
        roleStr ++ ": " ++ jsSubstringTo m.content 200 ++ ell) ++ [""]
    else []
  String.intercalate "\n" (base ++ ctxSections ++ specSections ++ histSections)

/-- Source `ChatManager.generateResponse` (part_001 184-227): build the context
string, optimize for token limits, stream the chunks (errors wrapped as
`LLM generation failed: …`), sanitize, and build the assistant message with
its metadata. -/
def generateResponseOnce (cfg : ChatManagerConfig) (env : ChatEnv)
    (msgs : List ChatMessage) (userMessage : ChatMessage) (attempt : Nat) :
    Except String ChatMessage :=
  let contextString := buildContextString env attempt userMessage msgs
  let optimization := optimizeForTokenLimits env.tm userMessage.content contextString
    (getRecentHistory msgs 10)
  match env.generateChunks attempt optimization.optimizedPrompt optimization.optimizedContext with
  | .error e => .error ("LLM generation failed: " ++ e)
  | .ok chunks =>
      let responseContent := String.join chunks
      let sanitizedContent :=
        if cfg.enableSafetyFilter then env.sanitizeResponse responseContent
        else responseContent
      let am := createAssistantMessageAt env (attempt + 1) sanitizedContent
      let md : MessageMetadata :=
        { processingTime := some (env.procTime attempt)
          tokenCount := some (env.tm.estimateTokens sanitizedContent)
          model := some "llm-service" }
      .ok { am with metadata := some md }

/-- Source `ConversationStateManager.addMessage`: throws `No active conversation`
when there is no current conversation, otherwise appends (auto-save failures
are swallowed by the source's `.catch`). -/
def smAddMessage (st : MgrState) (m : ChatMessage) : Except String Unit × MgrState :=
  match st.conversation with
  | none => (.error "No active conversation", st)
  | some ms => (.ok (), { st with conversation := some (ms ++ [m]) })

/-- Source `ConversationStateManager.trimConversationHistory()` with the config's
`maxHistoryLength` as limit: keeps the most recent `limit` messages (JS
`slice(-0)` keeps everything), then saves — a save failure throws
`Failed to save conversation` after the trim has mutated the state. -/
def smTrimHistory (cfg : ChatManagerConfig) (env : ChatEnv) (st : MgrState) :
    Except String Unit × MgrState :=
  match st.conversation with
  | none => (.ok (), st)
  | some ms =>
      let limit := cfg.maxHistoryLength
      if ms.length ≤ limit then (.ok (), st)
      else
        let trimmed := if limit = 0 then ms else ms.drop (ms.length - limit)
        let st' := { st with conversation := some trimmed }
        if env.saveFails then (.error "Failed to save conversation", st')
        else (.ok (), st')

/-- The body of the `try` block of `sendMessage` (part_001 73-117): a thrown
error becomes `.error` paired with the state at the throw point. -/
def sendMessageBody (cfg : ChatManagerConfig) (env : ChatEnv) (st : MgrState)
    (message : String) (context : Option ChatContext) :
    Except String ChatResponse × MgrState :=
  -- Validate the request
  let gate : Option ChatResponse :=
    if cfg.enableSafetyFilter then
      let validation := env.validateRequest message
      if validation.isValid then none
      else some (createErrorResponse env
        ("Message blocked: " ++ String.intercalate ", " validation.errors) .validation)
    else none
  match gate with
  | some resp => (.ok resp, st)
  | none =>
      -- Create user message, attach the given context
      let um0 := createUserMessageAt env 0 message
      let um1 := match context with
        | some c => { um0 with context := some c }
        | none => um0
      -- Gather additional context if enabled (failure caught and logged)
      let userMessage :=
        if cfg.enableContextGathering then
          match env.getCurrentContext with
          | .ok cc => { um1 with context := some (mergeContext cc um1.context) }
          | .error _ => um1
        else um1
      -- Add user message to conversation
      let a1 := smAddMessage st userMessage
      match a1.1 with
      | .error e => (.error e, a1.2)
      | .ok _ =>
          let st1 := a1.2
          let msgs := st1.conversation.getD []
          -- Generate response with retry logic
          let gen := generateResponseWithRetry cfg.retryAttempts cfg.retryDelay
            (fun attempt => generateResponseOnce cfg env msgs userMessage attempt)
          match gen.1 with
          | .error e => (.error e, st1)
          | .ok assistantMessage =>
              -- Add assistant message, trim history
              let a2 := smAddMessage st1 assistantMessage
              match a2.1 with
              | .error e => (.error e, a2.2)
              | .ok _ =>
                  let t := smTrimHistory cfg env a2.2
                  match t.1 with
                  | .error e => (.error e, t.2)
                  | .ok _ =>
                      (.ok { message := assistantMessage
                             suggestions := some (generateSuggestions assistantMessage)
                             actions := some (extractActions assistantMessage.content) },
                       t.2)

/-- Source `ChatManager.sendMessage` (part_001 66-125): the busy gate, then the
`try`-body with its `catch` (system-classified error response) and `finally`
(`isProcessing = false` on every non-busy path). -/
def sendMessage (cfg : ChatManagerConfig) (env : ChatEnv) (st : MgrState)
    (message : String) (context : Option ChatContext) : ChatResponse × MgrState :=
  if st.isProcessing then
    (createErrorResponse env "Another message is currently being processed" .system, st)
  else
    let body := sendMessageBody cfg env { st with isProcessing := true } message context
    match body.1 with
    | .ok resp => (resp, { body.2 with isProcessing := false })
    | .error e => (createErrorResponse env e .system, { body.2 with isProcessing := false })

/-! ## Theorems -/

/-- C9: for every non-empty text `s`, `estimateTokens s = ceil (len s / 4)`;
`estimateTokens "" = 0`; and the estimate is a function of the text's length
only. -/
theorem estimateTokens_spec (tm : TokenManager) (s : String) :
    (s ≠ "" → tm.estimateTokens s = (s.length + 3) / 4)
    ∧ tm.estimateTokens "" = 0
    ∧ (∀ t : String, s.length = t.length → tm.estimateTokens s = tm.estimateTokens t) := by
  have hempty : ∀ u : String, u.isEmpty = decide (u.length = 0) := by
    intro u
    cases hu : u.isEmpty with
    | true =>
        have : u = "" := (String.isEmpty_iff u).mp hu
        subst this
        rfl
    | false =>
        have : ¬ u = "" := fun h => by
          subst h
          exact Bool.noConfusion hu
        have hne : u.data ≠ [] := fun h => this (by
          cases u with
          | mk d => cases h; rfl)
        have : u.length ≠ 0 := by
          intro h0
          exact hne (List.length_eq_zero.mp h0)
        simp [this]
  refine ⟨fun hs => ?_, rfl, fun t ht => ?_⟩
  · have hne : s.data ≠ [] := fun h => hs (by
      cases s with
      | mk d => cases h; rfl)
    have hlen : ¬ s.length = 0 := fun h0 => hne (List.length_eq_zero.mp h0)
    simp [TokenManager.estimateTokens, hempty, hlen, TokenManager.CHARS_PER_TOKEN]
  · simp [TokenManager.estimateTokens, hempty, ht, TokenManager.CHARS_PER_TOKEN]

/-- Witness for `estimateTokens_spec` at `"Hello world"`. -/
theorem estimateTokens_spec_witness :
    TokenManager.estimateTokens ⟨4096, 8192⟩ "Hello world" = 3
    ∧ TokenManager.estimateTokens ⟨4096, 8192⟩ "" = 0 := by
  have h := estimateTokens_spec ⟨4096, 8192⟩ "Hello world"
  exact ⟨by rw [h.1 (by decide)]; rfl, h.2.1⟩

/-- C10: `optimizePrompt` returns the prompt untouched on every path and its
result record has no context field, so the modelled `optimizeForTokenLimits`
hands back the input context (and prompt) unchanged — only the history is
actually changed by token-budget optimization. -/
theorem optimizeForTokenLimits_frame (tm : TokenManager) (prompt context : String)
    (history : List ChatMessage) (mt : Option Nat) :
    (tm.optimizePrompt prompt context mt).optimizedPrompt = prompt
    ∧ (optimizeForTokenLimits tm prompt context history).optimizedContext = context
    ∧ (optimizeForTokenLimits tm prompt context history).optimizedPrompt = prompt
    ∧ (optimizeForTokenLimits tm prompt context history).optimizedHistory
        = tm.optimizeConversationHistory history none := by
  have key : ∀ o : Option Nat, (tm.optimizePrompt prompt context o).optimizedPrompt = prompt := by
    intro o
    unfold TokenManager.optimizePrompt
    dsimp only
    split <;> rfl
  exact ⟨key mt, rfl, key none, rfl⟩

/-- The repository-test-sized shape of the C5 failing input, scaled down for
kernel evaluation: a context of 400 `'a'`s (100 estimated tokens). -/
def c5Context : String := String.mk (List.replicate 400 'a')

set_option maxRecDepth 4096 in
/-- C5 (code bug): with `maxTokens = 90` the input is 10 tokens over budget,
yet strategy 1 computes the `substring` start as `contextTokens -
targetContextLength` — a token count minus a character count, here negative
and clamped to 0 — so nothing is removed, the log still records a
`Truncated 0 characters` entry, and the final `tokensSaved` is 0 (the
repository's own test `optimizePrompt should optimize long context` expects a
positive saving on exactly this shape of input). -/
theorem optimizePrompt_strategy1_unit_mix :
    TokenManager.optimizePrompt ⟨90, 100⟩ "" c5Context none
      = { optimizedPrompt := ""
          removedContent := ["Truncated 0 characters from context"]
          tokensSaved := 0 }
    ∧ TokenManager.estimateTokens ⟨90, 100⟩ ("" ++ c5Context) = 100 := by
  constructor <;> decide

/-- Running the retry loop over a range of attempts that all fail: the last
error is kept, a backoff delay `d * attempt` is recorded between an attempt
and the next, and every remaining attempt number is tried. -/
theorem retryAux_fail_run {α : Type} (op : Nat → Except String α) (d total : Nat)
    (e : Nat → String) :
    ∀ rem, 1 ≤ rem → rem ≤ total →
      (∀ i, total - rem < i → i ≤ total → op i = .error (e i)) →
      ∀ le delays calls,
        retryAux op d total rem le delays calls
          = (.error (e total),
             delays ++ (List.range' (total - rem + 1) (rem - 1)).map (fun i => d * i),
             calls ++ List.range' (total - rem + 1) rem) := by
  intro rem
  induction rem with
  | zero => omega
  | succ r ih =>
      intro _ hle hop le delays calls
      have hatt : op (total - r) = .error (e (total - r)) := hop _ (by omega) (by omega)
      cases r with
      | zero =>
          have htot : total - 0 = total := by omega
          rw [htot] at hatt
          have h1 : total - 1 + 1 = total := by omega
          simp [retryAux, hatt, h1, List.range'_one]
      | succ r' =>
          have hlt : total - (r' + 1) < total := by omega
          have step : retryAux op d total (r' + 1 + 1) le delays calls
              = retryAux op d total (r' + 1) (some (e (total - (r' + 1))))
                  (delays ++ [d * (total - (r' + 1))]) (calls ++ [total - (r' + 1)]) := by
            conv_lhs => rw [retryAux]
            simp [hatt, hlt]
          rw [step, ih (by omega) (by omega) (fun i hi₁ hi₂ => hop i (by omega) hi₂)]
          have harr : total - (r' + 1 + 1) + 1 = total - (r' + 1) := by omega
          rw [harr]
          simp [List.range'_succ, Nat.succ_sub_one, List.append_assoc]

/-- C7: the retry wrapper tries up to the configured number of attempts with
linear backoff `baseDelay * attemptNumber` between failures; an operation that
always fails makes it rethrow the last error after exactly `attempts` tries,
and one that fails twice then succeeds on the third of three attempts yields
the success with delays `baseDelay * 1`, `baseDelay * 2`. -/
theorem generateResponseWithRetry_spec {α : Type} (d n : Nat) (op : Nat → Except String α)
    (e : Nat → String) :
    (1 ≤ n → (∀ i, 1 ≤ i → i ≤ n → op i = .error (e i)) →
      generateResponseWithRetry n d op
        = (.error (e n), (List.range' 1 (n - 1)).map (fun i => d * i), List.range' 1 n))
    ∧ (∀ (op3 : Nat → Except String α) (v : α) (e1 e2 : String),
        op3 1 = .error e1 → op3 2 = .error e2 → op3 3 = .ok v →
        generateResponseWithRetry 3 d op3 = (.ok v, [d * 1, d * 2], [1, 2, 3])) := by
  constructor
  · intro hn hop
    have h := retryAux_fail_run op d n e n hn (le_refl n) (fun i hi₁ hi₂ => hop i (by omega) hi₂)
      none [] []
    have harr : n - n + 1 = 1 := by omega
    rw [harr] at h
    simpa [generateResponseWithRetry] using h
  · intro op3 v e1 e2 h1 h2 h3
    have n1 : (3 : Nat) - 2 = 1 := rfl
    have n2 : (3 : Nat) - 1 = 2 := rfl
    have n3 : (3 : Nat) - 0 = 3 := rfl
    simp [generateResponseWithRetry, retryAux, n1, n2, n3, h1, h2, h3]

/-- Witness for `generateResponseWithRetry_spec`: an always-failing operation
over 2 attempts, and a fail-fail-succeed operation over 3 attempts. -/
theorem generateResponseWithRetry_spec_witness :
    generateResponseWithRetry 2 100 (fun i => (.error (toString i) : Except String Nat))
      = (.error "2", [100], [1, 2])
    ∧ generateResponseWithRetry 3 100
        (fun i => if i < 3 then (.error (toString i) : Except String Nat) else .ok 42)
      = (.ok 42, [100, 200], [1, 2, 3]) := by
  constructor
  · have h := (generateResponseWithRetry_spec 100 2
      (fun i => (.error (toString i) : Except String Nat))
      (fun i => toString i)).1 (by omega) (fun i _ _ => rfl)
    simpa [List.range'] using h
  · have h := (generateResponseWithRetry_spec (α := Nat) 100 0 (fun _ => .error "") (fun _ => "")).2
      (fun i => if i < 3 then .error (toString i) else .ok 42) 42 "1" "2" rfl rfl rfl
    simpa using h

/-- C4 (code bug): evaluating the embedded `generateResponse` at the exact
shape of the repository's LLMService test `should handle API errors` (status
401, statusText `Unauthorized`, which the test expects to reject with
`HTTP 401: Unauthorized`): the call does fail before yielding any fragment,
but `createLLMError` rewrites the message — it contains `401` — into
`Authentication failed - please check your API key`, which does not carry
the HTTP status; statuses 429 and 500 are likewise rewritten, while a status
outside the three rewrite cases (here 404, with stream data buffered and
none of it yielded) surfaces the status-carrying message unchanged. -/
theorem generateResponseStream_status_rewrite_bug :
    generateResponseStream (fun _ => none)
        (.ok ⟨401, "Unauthorized", some ["data: [DONE]\n".data]⟩)
      = .error "Authentication failed - please check your API key"
    ∧ containsStr "Authentication failed - please check your API key" "401" = false
    ∧ generateResponseStream (fun _ => none) (.ok ⟨429, "Too Many Requests", some []⟩)
      = .error "Rate limit exceeded - please try again later"
    ∧ generateResponseStream (fun _ => none) (.ok ⟨500, "Internal Server Error", some []⟩)
      = .error "LLM service is temporarily unavailable"
    ∧ generateResponseStream (fun _ => none)
        (.ok ⟨404, "Not Found", some ["data: [DONE]\n".data]⟩)
      = .error "HTTP 404: Not Found" := by
  refine ⟨by rfl, by decide, by rfl, by rfl, by rfl⟩

/-! ### C1: the busy gate -/

/-- A concrete, fully benign environment for closed evaluations. -/
def cexEnv : ChatEnv :=
  { tm := ⟨4096, 8192⟩
    validateRequest := fun _ => ⟨true, [], []⟩
    sanitizeResponse := fun s => s
    getCurrentContext := .ok {}
    getRelevantContext := fun _ _ => .ok ""
    generateChunks := fun _ _ _ => .ok ["Hello ", "world!"]
    saveFails := false
    mkId := fun k => "msg_" ++ toString k
    now := fun _ => 0
    procTime := fun _ => 0 }

/-- The source's default `ChatManagerConfig`. -/
def defaultConfig : ChatManagerConfig :=
  { maxHistoryLength := 50
    enableContextGathering := true
    enableSafetyFilter := true
    retryAttempts := 3
    retryDelay := 1000 }

/-- C1 counterexample: a second `sendMessage` while one is in flight is
rejected with an error-carrying response, but `createErrorResponse` is called
without a type, so `error.type` defaults to `system` (not the validation
class) and `error.retryable` is `true` (not `false`). -/
theorem sendMessage_busy_counterexample :
    ((sendMessage defaultConfig cexEnv ⟨true, some []⟩ "Hello" none).1.error.map
        (fun e => (e.type, e.retryable))) = some (.system, true)
    ∧ ((sendMessage defaultConfig cexEnv ⟨true, some []⟩ "Hello" none).1.error.any
        (fun e => e.type == ErrorType.validation && !e.retryable)) = false
    ∧ ErrorType.system ≠ ErrorType.validation := by
  refine ⟨rfl, rfl, by decide⟩

/-- C1 (amended): while a request is in flight, a second invocation is
immediately rejected with an error-carrying response whose `error.type` is
`system` (the `createErrorResponse` default) and whose `error.retryable` is
`true`, and the manager state — the in-flight request included — is left
untouched. -/
theorem sendMessage_busy (cfg : ChatManagerConfig) (env : ChatEnv) (st : MgrState)
    (m : String) (c : Option ChatContext) (h : st.isProcessing = true) :
    sendMessage cfg env st m c
      = (createErrorResponse env "Another message is currently being processed" .system, st)
    ∧ ∃ e, (sendMessage cfg env st m c).1.error = some e
        ∧ e.type = .system ∧ e.retryable = true
        ∧ e.message = "Another message is currently being processed" := by
  have hbusy : sendMessage cfg env st m c
      = (createErrorResponse env "Another message is currently being processed" .system, st) := by
    simp [sendMessage, h]
  refine ⟨hbusy, ?_⟩
  rw [hbusy]
  exact ⟨_, rfl, rfl, rfl, rfl⟩

/-- Witness for `sendMessage_busy` in the concrete environment. -/
theorem sendMessage_busy_witness :
    (⟨true, some []⟩ : MgrState).isProcessing = true
    ∧ (sendMessage defaultConfig cexEnv ⟨true, some []⟩ "Hello" none
        = (createErrorResponse cexEnv "Another message is currently being processed" .system,
           (⟨true, some []⟩ : MgrState))
      ∧ ∃ e, (sendMessage defaultConfig cexEnv ⟨true, some []⟩ "Hello" none).1.error = some e
          ∧ e.type = .system ∧ e.retryable = true
          ∧ e.message = "Another message is currently being processed") :=
  ⟨rfl, sendMessage_busy defaultConfig cexEnv ⟨true, some []⟩ "Hello" none rfl⟩

/-! ### C2: no exception escapes sendMessage -/

/-- A successful retry result comes from some successful attempt. -/
theorem retryAux_ok_source {α : Type} (op : Nat → Except String α) (d total : Nat) :
    ∀ rem le delays calls a ds cs,
      retryAux op d total rem le delays calls = (.ok a, ds, cs) → ∃ k, op k = .ok a := by
  intro rem
  induction rem with
  | zero =>
      intro le delays calls a ds cs h
      simp [retryAux] at h
  | succ r ih =>
      intro le delays calls a ds cs h
      rw [retryAux] at h
      cases hop : op (total - r) with
      | ok b =>
          rw [hop] at h
          simp at h
          exact ⟨total - r, by rw [hop, h.1]⟩
      | error e =>
          rw [hop] at h
          simp at h
          split at h
          · exact ih _ _ _ _ _ _ h
          · exact ih _ _ _ _ _ _ h

/-- Bridging form of `retryAux_ok_source` for the wrapper. -/
theorem generateResponseWithRetry_ok_source {α : Type} (n d : Nat)
    (op : Nat → Except String α) (a : α)
    (h : (generateResponseWithRetry n d op).1 = .ok a) : ∃ k, op k = .ok a := by
  rcases hr : generateResponseWithRetry n d op with ⟨r, rest⟩
  rw [hr] at h
  dsimp at h
  subst h
  rw [generateResponseWithRetry] at hr
  exact retryAux_ok_source op d n n none [] [] a rest.1 rest.2 (by rw [hr])

/-- Every assistant message produced by a successful `generateResponse`
attempt has the assistant role. -/
theorem generateResponseOnce_ok_role (cfg : ChatManagerConfig) (env : ChatEnv)
    (msgs : List ChatMessage) (um : ChatMessage) (k : Nat) (am : ChatMessage)
    (h : generateResponseOnce cfg env msgs um k = .ok am) : am.role = .assistant := by
  rw [generateResponseOnce] at h
  cases hg : env.generateChunks k
      (optimizeForTokenLimits env.tm um.content (buildContextString env k um msgs)
        (getRecentHistory msgs 10)).optimizedPrompt
      (optimizeForTokenLimits env.tm um.content (buildContextString env k um msgs)
        (getRecentHistory msgs 10)).optimizedContext with
  | error e => rw [hg] at h; simp at h
  | ok chunks =>
      rw [hg] at h
      simp at h
      rw [← h]
      rfl

/-- Shape of every error response built by `createErrorResponse`: an
assistant-role apology message whose content extends the error's message. -/
theorem createErrorResponse_shape (env : ChatEnv) (msg : String) (ty : ErrorType) :
    (createErrorResponse env msg ty).message.role = .assistant
    ∧ ((createErrorResponse env msg ty).error.all fun e =>
        (createErrorResponse env msg ty).message.content
          == "I apologize, but I encountered an error: " ++ e.message) = true := by
  refine ⟨rfl, ?_⟩
  simp [createErrorResponse, createAssistantMessageAt, Option.all]

/-- Every `.ok` outcome of the `try`-body is a response with an
assistant-role message; when it carries an error, the message is the apology
wrapper around the error's message. -/
theorem sendMessageBody_ok_shape (cfg : ChatManagerConfig) (env : ChatEnv)
    (st : MgrState) (m : String) (c : Option ChatContext) (resp : ChatResponse)
    (st' : MgrState) (h : sendMessageBody cfg env st m c = (.ok resp, st')) :
    resp.message.role = .assistant
    ∧ (resp.error.all fun e => resp.message.content
        == "I apologize, but I encountered an error: " ++ e.message) = true := by
  rw [sendMessageBody] at h
  dsimp only at h
  split at h
  · -- validation gate rejected: the response is a createErrorResponse
    rename_i heq
    split at heq
    · split at heq
      · exact absurd heq (by simp)
      · rw [Option.some_inj] at heq
        have hr : resp = createErrorResponse env
            ("Message blocked: " ++ String.intercalate ", " (env.validateRequest m).errors)
            .validation := by
          have := congrArg Prod.fst h
          simp at this
          rw [← this, ← heq]
        rw [hr]
        exact createErrorResponse_shape env _ _
    · exact absurd heq (by simp)
  · -- main path
    split at h
    · simp at h
    · split at h
      · simp at h
      · rename_i am hgen
        split at h
        · simp at h
        · split at h
          · simp at h
          · have hresp := congrArg Prod.fst h
            simp at hresp
            have hrole : am.role = .assistant := by
              obtain ⟨k, hk⟩ := generateResponseWithRetry_ok_source _ _ _ _ hgen
              exact generateResponseOnce_ok_role _ _ _ _ _ _ hk
            rw [← hresp]
            exact ⟨hrole, by simp [Option.all]⟩

/-- C2: for every input and every behaviour of the collaborators (validator
rejecting, context gathering throwing, generation failing after all retries,
ledger append or persist throwing), `sendMessage` returns a `ChatResponse`
whose message has the assistant role, and any carried error is reflected in
an apology-style assistant message — no exception propagates. -/
theorem sendMessage_no_escape (cfg : ChatManagerConfig) (env : ChatEnv)
    (st : MgrState) (m : String) (c : Option ChatContext) :
    (sendMessage cfg env st m c).1.message.role = .assistant
    ∧ ((sendMessage cfg env st m c).1.error.all fun e =>
        (sendMessage cfg env st m c).1.message.content
          == "I apologize, but I encountered an error: " ++ e.message) = true := by
  rw [sendMessage]
  split
  · exact createErrorResponse_shape env _ _
  · rcases hb : sendMessageBody cfg env { st with isProcessing := true } m c with ⟨r, s2⟩
    cases r with
    | ok resp =>
        have := sendMessageBody_ok_shape cfg env _ m c resp s2 hb
        simpa [hb] using this
    | error e =>
        simp only [hb]
        exact createErrorResponse_shape env _ _

/-! ### C6: conversation history optimization -/

/-- The embedded `truncateMessage` yields either the message itself (when its content
already fits) or a copy with the original id and `metadata.truncated = true`. -/
theorem truncateMessage_shape (tm : TokenManager) (m : ChatMessage) (a : Nat)
    (t : ChatMessage) (h : tm.truncateMessage m a = some t) :
    t = m ∨ (t.id = m.id ∧ ∃ md, t.metadata = some md ∧ md.truncated = some true) := by
  rw [TokenManager.truncateMessage] at h
  dsimp only at h
  split at h
  · simp at h
  · split at h
    · left
      exact (Option.some_inj.mp h).symm
    · right
      rw [Option.some_inj] at h
      rw [← h]
      exact ⟨rfl, _, rfl, rfl⟩

/-- Shape of the backwards accumulation loop: the kept messages are a
reversed prefix of the walk order (i.e. a suffix of the original order),
possibly preceded by one truncated message. -/
theorem histLoop_shape (tm : TokenManager) (mx : Nat) :
    ∀ (rem : List ChatMessage) (total : Nat) (acc : List ChatMessage),
      (∃ n, n ≤ rem.length ∧ tm.histLoop mx rem total acc = (rem.take n).reverse ++ acc)
      ∨ (∃ n t m', n < rem.length ∧ rem.get? n = some m'
          ∧ (t = m' ∨ (t.id = m'.id ∧ ∃ md, t.metadata = some md ∧ md.truncated = some true))
          ∧ tm.histLoop mx rem total acc = t :: ((rem.take n).reverse ++ acc)) := by
  intro rem
  induction rem with
  | nil =>
      intro total acc
      left
      exact ⟨0, by simp, by simp [TokenManager.histLoop]⟩
  | cons m rest ih =>
      intro total acc
      rw [TokenManager.histLoop]
      dsimp only
      split
      · rcases ih (total + tm.calculateMessageTokens m) (m :: acc) with
          ⟨n, hn, heq⟩ | ⟨n, t, m', hn, hget, htr, heq⟩
        · left
          refine ⟨n + 1, by simpa using Nat.succ_le_succ hn, ?_⟩
          rw [heq, List.take_succ_cons, List.reverse_cons, List.append_assoc]
          rfl
        · right
          refine ⟨n + 1, t, m', Nat.succ_lt_succ hn, by simpa using hget, htr, ?_⟩
          rw [heq, List.take_succ_cons, List.reverse_cons, List.append_assoc]
          rfl
      · split
        · split
          · rename_i t ht
            right
            exact ⟨0, t, m, by simp, by simp, truncateMessage_shape _ _ _ _ ht, by simp⟩
          · left
            exact ⟨0, by simp, by simp⟩
        · left
          exact ⟨0, by simp, by simp⟩

/-- C6: for every non-empty message list and budget,
`optimizeConversationHistory` keeps the last input message unmodified at the
end, returns at most as many messages as it received, and returns a suffix of
the input, possibly preceded by one extra message that is either the next
older message itself or a truncated copy of it marked
`metadata.truncated = true` with its id preserved. -/
theorem optimizeConversationHistory_spec (tm : TokenManager)
    (messages : List ChatMessage) (budget : Option Nat) (h : messages ≠ []) :
    (tm.optimizeConversationHistory messages budget).getLast? = messages.getLast?
    ∧ (tm.optimizeConversationHistory messages budget).length ≤ messages.length
    ∧ ∃ k, k < messages.length ∧
        (tm.optimizeConversationHistory messages budget = messages.drop k
         ∨ (1 ≤ k ∧ ∃ m' t, messages.get? (k - 1) = some m'
             ∧ tm.optimizeConversationHistory messages budget = t :: messages.drop k
             ∧ (t = m' ∨ (t.id = m'.id ∧ ∃ md, t.metadata = some md
                  ∧ md.truncated = some true)))) := by
  rcases List.eq_nil_or_concat' messages with rfl | ⟨L, last, rfl⟩
  · exact absurd rfl h
  have hopt : tm.optimizeConversationHistory (L ++ [last]) budget
      = tm.histLoop (jsOrDefault budget (tm.contextWindow * 7 / 10)) L.reverse
          (tm.calculateMessageTokens last) [last] := by
    rw [TokenManager.optimizeConversationHistory]
    rw [List.getLast?_concat]
    simp [List.dropLast_concat]
  set mx := jsOrDefault budget (tm.contextWindow * 7 / 10) with hmx
  rcases histLoop_shape tm mx L.reverse (tm.calculateMessageTokens last) [last] with
    ⟨n, hn, heq⟩ | ⟨n, t, m', hn, hget, htr, heq⟩
  · rw [List.length_reverse] at hn
    have hsuffix : (L.reverse.take n).reverse = L.drop (L.length - n) := by
      rw [List.take_reverse, List.reverse_reverse]
    have hres : tm.optimizeConversationHistory (L ++ [last]) budget
        = L.drop (L.length - n) ++ [last] := by
      rw [hopt, heq, hsuffix]
    refine ⟨?_, ?_, L.length - n, by simp; omega, Or.inl ?_⟩
    · rw [hres, List.getLast?_concat, List.getLast?_concat]
    · rw [hres]
      simp [List.length_drop]
      try omega
    · rw [hres, List.drop_append_of_le_length (by omega)]
  · rw [List.length_reverse] at hn
    have hsuffix : (L.reverse.take n).reverse = L.drop (L.length - n) := by
      rw [List.take_reverse, List.reverse_reverse]
    have hres : tm.optimizeConversationHistory (L ++ [last]) budget
        = t :: (L.drop (L.length - n) ++ [last]) := by
      rw [hopt, heq, hsuffix]
    have hm' : (L ++ [last]).get? (L.length - n - 1) = some m' := by
      rw [List.get?_eq_getElem?] at hget ⊢
      rw [List.getElem?_reverse (by simpa using hn)] at hget
      rw [List.getElem?_append_left (by omega)]
      have : L.length - 1 - n = L.length - n - 1 := by omega
      rw [this] at hget
      exact hget
    refine ⟨?_, ?_, L.length - n, by simp; omega, Or.inr ⟨by omega, m', t, hm', ?_, htr⟩⟩
    · rw [hres, show t :: (L.drop (L.length - n) ++ [last])
          = (t :: L.drop (L.length - n)) ++ [last] from rfl,
        List.getLast?_concat, List.getLast?_concat]
    · rw [hres]
      simp [List.length_drop]
      try omega
    · rw [hres, List.drop_append_of_le_length (by omega)]

/-- Witness for `optimizeConversationHistory_spec` on a concrete history. -/
theorem optimizeConversationHistory_spec_witness :
    ([⟨"m1", .user, "Hello", 1, none, none⟩,
      ⟨"m2", .assistant, "Hi there", 2, none, none⟩,
      ⟨"m3", .user, "How are you?", 3, none, none⟩] : List ChatMessage) ≠ []
    ∧ ((TokenManager.optimizeConversationHistory ⟨4096, 8192⟩
          [⟨"m1", .user, "Hello", 1, none, none⟩,
           ⟨"m2", .assistant, "Hi there", 2, none, none⟩,
           ⟨"m3", .user, "How are you?", 3, none, none⟩] (some 1000)).getLast?
        = ([⟨"m1", .user, "Hello", 1, none, none⟩,
            ⟨"m2", .assistant, "Hi there", 2, none, none⟩,
            ⟨"m3", .user, "How are you?", 3, none, none⟩] : List ChatMessage).getLast?
      ∧ (TokenManager.optimizeConversationHistory ⟨4096, 8192⟩
          [⟨"m1", .user, "Hello", 1, none, none⟩,
           ⟨"m2", .assistant, "Hi there", 2, none, none⟩,
           ⟨"m3", .user, "How are you?", 3, none, none⟩] (some 1000)).length ≤ 3
      ∧ ∃ k, k < 3 ∧
          (TokenManager.optimizeConversationHistory ⟨4096, 8192⟩
            [⟨"m1", .user, "Hello", 1, none, none⟩,
             ⟨"m2", .assistant, "Hi there", 2, none, none⟩,
             ⟨"m3", .user, "How are you?", 3, none, none⟩] (some 1000)
            = ([⟨"m1", .user, "Hello", 1, none, none⟩,
                ⟨"m2", .assistant, "Hi there", 2, none, none⟩,
                ⟨"m3", .user, "How are you?", 3, none, none⟩] : List ChatMessage).drop k
          ∨ (1 ≤ k ∧ ∃ m' t, ([⟨"m1", .user, "Hello", 1, none, none⟩,
                ⟨"m2", .assistant, "Hi there", 2, none, none⟩,
                ⟨"m3", .user, "How are you?", 3, none, none⟩] : List ChatMessage).get? (k - 1)
                  = some m'
              ∧ TokenManager.optimizeConversationHistory ⟨4096, 8192⟩
                  [⟨"m1", .user, "Hello", 1, none, none⟩,
                   ⟨"m2", .assistant, "Hi there", 2, none, none⟩,
                   ⟨"m3", .user, "How are you?", 3, none, none⟩] (some 1000)
                  = t :: ([⟨"m1", .user, "Hello", 1, none, none⟩,
                      ⟨"m2", .assistant, "Hi there", 2, none, none⟩,
                      ⟨"m3", .user, "How are you?", 3, none, none⟩] : List ChatMessage).drop k
              ∧ (t = m' ∨ (t.id = m'.id ∧ ∃ md, t.metadata = some md
                    ∧ md.truncated = some true))))) :=
  ⟨by decide,
   optimizeConversationHistory_spec ⟨4096, 8192⟩
     [⟨"m1", .user, "Hello", 1, none, none⟩,
      ⟨"m2", .assistant, "Hi there", 2, none, none⟩,
      ⟨"m3", .user, "How are you?", 3, none, none⟩] (some 1000) (by decide)⟩

/-! ### C3: stream accumulation is chunking-invariant -/

theorem splitNl_ne_nil (s : List Char) : splitNl s ≠ [] := by
  cases s with
  | nil => simp [splitNl]
  | cons c rest =>
      rw [splitNl]
      split
      · simp
      · cases h : splitNl rest <;> simp

theorem headD_cons_tail {α : Type} (l : List α) (d : α) (h : l ≠ []) :
    l.headD d :: l.tail = l := by
  cases l with
  | nil => exact absurd rfl h
  | cons x xs => rfl

theorem dropLast_append_getLastD {α : Type} (l : List α) (d : α) (h : l ≠ []) :
    l.dropLast ++ [l.getLastD d] = l := by
  rcases List.eq_nil_or_concat' l with rfl | ⟨L, a, rfl⟩
  · exact absurd rfl h
  · rw [List.dropLast_concat, List.getLastD_concat]

/-- Every piece produced by the newline split is newline-free. -/
theorem splitNl_mem_no_nl : ∀ (s : List Char) (l : List Char), l ∈ splitNl s → '\n' ∉ l := by
  intro s
  induction s with
  | nil =>
      intro l hl
      simp [splitNl] at hl
      simp [hl]
  | cons c rest ih =>
      intro l hl
      rw [splitNl] at hl
      by_cases hc : c = '\n'
      · rw [if_pos hc] at hl
        rcases List.mem_cons.mp hl with rfl | hl
        · simp
        · exact ih l hl
      · rw [if_neg hc] at hl
        cases h : splitNl rest with
        | nil => exact absurd h (splitNl_ne_nil rest)
        | cons m ms =>
            rw [h] at hl
            rcases List.mem_cons.mp hl with rfl | hl
            · intro hmem
              rcases List.mem_cons.mp hmem with heq | hmem
              · exact hc heq.symm
              · exact ih m (h ▸ List.mem_cons_self m ms) hmem
            · exact ih l (h ▸ List.mem_cons_of_mem m hl)

theorem splitNl_no_nl (s : List Char) (h : '\n' ∉ s) : splitNl s = [s] := by
  induction s with
  | nil => rfl
  | cons c rest ih =>
      have hc : ¬ c = '\n' := fun he => h (he ▸ List.mem_cons_self c rest)
      have hrest : '\n' ∉ rest := fun hm => h (List.mem_cons_of_mem c hm)
      rw [splitNl, if_neg hc, ih hrest]

/-- Splitting on newlines distributes over concatenation: the trailing (incomplete) piece
of `a` fuses with the leading piece of `b`. -/
theorem splitNl_append (a b : List Char) :
    splitNl (a ++ b)
      = (splitNl a).dropLast
        ++ ((splitNl a).getLastD [] ++ (splitNl b).headD []) :: (splitNl b).tail := by
  induction a with
  | nil =>
      rw [List.nil_append]
      exact (headD_cons_tail (splitNl b) [] (splitNl_ne_nil b)).symm
  | cons c a' ih =>
      by_cases hc : c = '\n'
      · subst hc
        rw [List.cons_append, splitNl, if_pos rfl, ih,
          show splitNl ('\n' :: a') = [] :: splitNl a' from by rw [splitNl, if_pos rfl],
          List.dropLast_cons_of_ne_nil (splitNl_ne_nil a'), List.getLastD_cons]
        simp
      · rw [List.cons_append, splitNl, if_neg hc]
        cases hab : splitNl (a' ++ b) with
        | nil => exact absurd hab (splitNl_ne_nil _)
        | cons m ms =>
            conv_rhs => rw [splitNl, if_neg hc]
            cases ha : splitNl a' with
            | nil => exact absurd ha (splitNl_ne_nil a')
            | cons x xs =>
                rw [ha, hab] at ih
                cases xs with
                | nil =>
                    simp only [List.dropLast_single, List.nil_append,
                      List.getLastD_cons, List.getLastD_nil] at ih
                    injection ih with h1 h2
                    subst h1
                    subst h2
                    simp
                | cons y ys =>
                    simp only [List.dropLast_cons₂, List.getLastD_cons, List.cons_append] at ih
                    injection ih with h1 h2
                    subst h1
                    subst h2
                    simp only [List.dropLast_cons₂, List.getLastD_cons, List.cons_append,
                      List.getLastD_eq_getLast?, List.getLast?_cons_cons]
                    cases ys with
                    | nil => simp
                    | cons z zs =>
                        have hg := List.getLast?_eq_getLast (z :: zs) (by simp)
                        simp [hg]

theorem getLastD_mem {α : Type} (l : List α) (d : α) (h : l ≠ []) : l.getLastD d ∈ l := by
  rcases List.eq_nil_or_concat' l with rfl | ⟨L, a, rfl⟩
  · exact absurd rfl h
  · rw [List.getLastD_concat]
    simp

/-- Processing a batch of lines in two parts: once the sentinel is hit in the
first part, the second part contributes nothing. -/
theorem feedLines_append (ext : List Char → Option (List Char)) (l1 l2 : List (List Char)) :
    feedLines ext (l1 ++ l2)
      = if (feedLines ext l1).2 then feedLines ext l1
        else ((feedLines ext l1).1 ++ (feedLines ext l2).1, (feedLines ext l2).2) := by
  induction l1 with
  | nil => simp [feedLines]
  | cons l ls ih =>
      by_cases hte : jsTrimEmpty l
      · simp [feedLines, hte, ih]
      · by_cases hd : isDataLine l
        · by_cases hdone : l.drop 6 = "[DONE]".data
          · simp [feedLines, hte, hd, hdone]
          · cases hx : ext (l.drop 6) with
            | some f =>
                by_cases h2 : (feedLines ext ls).2
                · simp [feedLines, hte, hd, hdone, hx, ih, h2]
                · simp [feedLines, hte, hd, hdone, hx, ih, h2]
            | none => simp [feedLines, hte, hd, hdone, hx, ih]
        · simp [feedLines, hte, hd, ih]

/-- A batch of lines ending with the `data: [DONE]` sentinel always reports
termination. -/
theorem feedLines_done_end (ext : List Char → Option (List Char)) :
    ∀ ls, (feedLines ext (ls ++ ["data: [DONE]".data])).2 = true := by
  intro ls
  induction ls with
  | nil => rfl
  | cons l ls ih =>
      rw [List.cons_append, feedLines]
      by_cases hte : jsTrimEmpty l
      · simp [hte, ih]
      · by_cases hd : isDataLine l
        · by_cases hdone : l.drop 6 = "[DONE]".data
          · simp [hte, hd, hdone]
          · cases hx : ext (l.drop 6) with
            | some f => simp [hte, hd, hdone, hx, ih]
            | none => simp [hte, hd, hdone, hx, ih]
        · simp [hte, hd, ih]

/-- The consumer over any chunk sequence equals processing all complete lines
of the whole payload at once (with a newline-free held-back buffer). -/
theorem consumeStream_eq_singleRead (ext : List Char → Option (List Char)) :
    ∀ (chunks : List (List Char)) (buf : List Char), '\n' ∉ buf →
      consumeStream ext chunks buf
        = (feedLines ext ((splitNl (buf ++ chunks.flatten)).dropLast)).1 := by
  intro chunks
  induction chunks with
  | nil =>
      intro buf hbuf
      rw [consumeStream, List.flatten_nil, List.append_nil, splitNl_no_nl buf hbuf]
      rfl
  | cons c cs ih =>
      intro buf hbuf
      rw [consumeStream]
      have hbuf' : '\n' ∉ (splitNl (buf ++ c)).getLastD [] :=
        splitNl_mem_no_nl (buf ++ c) _
          (getLastD_mem _ _ (splitNl_ne_nil _))
      rw [List.flatten_cons, ← List.append_assoc,
        splitNl_append (buf ++ c) cs.flatten, List.dropLast_append_cons,
        feedLines_append]
      have ihx := ih ((splitNl (buf ++ c)).getLastD []) hbuf'
      rw [splitNl_append ((splitNl (buf ++ c)).getLastD []) cs.flatten,
        splitNl_no_nl _ hbuf'] at ihx
      simp only [List.dropLast_single, List.nil_append, List.getLastD_cons,
        List.getLastD_nil] at ihx
      by_cases h2 : (feedLines ext (splitNl (buf ++ c)).dropLast).2
      · simp [h2]
      · have ihx' := ihx
        simp only [List.getLastD_eq_getLast?, List.headD_eq_head?] at ihx'
        simp [h2, ihx']

/-- Appending a newline closes the pending line. -/
theorem splitNl_concat_nl (y : List Char) : splitNl (y ++ ['\n']) = splitNl y ++ [[]] := by
  rw [splitNl_append y ['\n']]
  have h1 : splitNl ['\n'] = [[], []] := rfl
  rw [h1]
  simp only [List.headD_cons, List.tail_cons, List.append_nil]
  rw [show ((splitNl y).getLastD [] :: ([[]] : List (List Char)))
        = [(splitNl y).getLastD []] ++ [[]] from rfl,
    ← List.append_assoc, dropLast_append_getLastD _ _ (splitNl_ne_nil y)]

/-- Splitting a payload that ends with a complete `data: [DONE]` line. -/
theorem splitNl_append_done (a : List Char) :
    splitNl (a ++ "\ndata: [DONE]".data) = splitNl a ++ ["data: [DONE]".data] := by
  rw [splitNl_append a "\ndata: [DONE]".data]
  rw [show splitNl ("\ndata: [DONE]".data) = [[], "data: [DONE]".data] from by decide]
  simp only [List.headD_cons, List.tail_cons, List.append_nil]
  rw [show ((splitNl a).getLastD [] :: (["data: [DONE]".data] : List (List Char)))
        = [(splitNl a).getLastD []] ++ ["data: [DONE]".data] from rfl,
    ← List.append_assoc, dropLast_append_getLastD _ _ (splitNl_ne_nil a)]

/-- C3: the emitted fragment sequence is invariant under how the payload is
split into read chunks, and a complete `data: [DONE]` line terminates
iteration — bytes after it in the same read and any further reads are
ignored. -/
theorem consumeStream_spec (ext : List Char → Option (List Char)) :
    (∀ chunks : List (List Char),
      consumeStream ext chunks [] = consumeStream ext [chunks.flatten] [])
    ∧ (∀ (a b : List Char) (rest : List (List Char)),
      consumeStream ext ((a ++ "\ndata: [DONE]\n".data ++ b) :: rest) []
        = consumeStream ext [a ++ "\ndata: [DONE]\n".data] []) := by
  constructor
  · intro chunks
    rw [consumeStream_eq_singleRead ext chunks [] (by simp),
        consumeStream_eq_singleRead ext [chunks.flatten] [] (by simp)]
    simp
  · intro a b rest
    have hD : ("\ndata: [DONE]\n".data : List Char) = "\ndata: [DONE]".data ++ ['\n'] := by
      decide
    have hsplit : splitNl (a ++ "\ndata: [DONE]\n".data)
        = (splitNl a ++ ["data: [DONE]".data]) ++ [[]] := by
      rw [hD, ← List.append_assoc, splitNl_concat_nl, splitNl_append_done]
    rw [consumeStream_eq_singleRead ext _ [] (by simp),
        consumeStream_eq_singleRead ext _ [] (by simp)]
    simp only [List.flatten_cons, List.flatten_nil, List.nil_append, List.append_nil]
    rw [List.append_assoc (a ++ "\ndata: [DONE]\n".data) b rest.flatten]
    rw [splitNl_append (a ++ "\ndata: [DONE]\n".data) (b ++ rest.flatten), hsplit]
    rw [List.getLastD_concat, List.dropLast_concat]
    simp only [List.nil_append]
    rw [List.dropLast_append_cons, feedLines_append,
      if_pos (feedLines_done_end ext (splitNl a))]

/-! ### C8: action extraction -/

/-- The text of a fenced code block with the given (possibly empty) language
tag. -/
def blockChars (lang code : List Char) : List Char :=
  "```".data ++ lang ++ ['\n'] ++ code ++ "```".data

/-- The given blocks occur, in order and without overlap, in the text. -/
def BlocksInText : List (Option (List Char) × List Char) → List Char → Prop
  | [], _ => True
  | b :: bs, s =>
      ∃ pre rest, s = pre ++ blockChars (b.1.getD []) b.2 ++ rest ∧ BlocksInText bs rest

theorem BlocksInText.prepend {bs : List (Option (List Char) × List Char)}
    {s : List Char} (x : List Char) (h : BlocksInText bs s) : BlocksInText bs (x ++ s) := by
  cases bs with
  | nil => trivial
  | cons b bs' =>
      obtain ⟨pre, rest, heq, h'⟩ := h
      exact ⟨x ++ pre, rest, by rw [heq]; simp [List.append_assoc], h'⟩

theorem BlocksInText.filter (p : Option (List Char) × List Char → Bool) :
    ∀ (bs : List (Option (List Char) × List Char)) (s : List Char),
      BlocksInText bs s → BlocksInText (bs.filter p) s := by
  intro bs
  induction bs with
  | nil => intro s _; trivial
  | cons b bs' ih =>
      intro s h
      obtain ⟨pre, rest, heq, h'⟩ := h
      by_cases hp : p b
      · rw [List.filter_cons_of_pos hp]
        exact ⟨pre, rest, heq, ih rest h'⟩
      · rw [List.filter_cons_of_neg hp]
        rw [heq]
        exact BlocksInText.prepend _ (ih rest h')

/-- The helper `splitAtFence` splits at an occurrence of the fence. -/
theorem splitAtFence_eq : ∀ (l x y : List Char),
    splitAtFence l = some (x, y) → l = x ++ "```".data ++ y := by
  intro l
  induction l with
  | nil => intro x y h; simp [splitAtFence] at h
  | cons c rest ih =>
      intro x y h
      rw [splitAtFence] at h
      by_cases hc : c = '`' ∧ rest.take 2 = ['`', '`']
      · rw [if_pos hc] at h
        simp only [Option.some_inj, Prod.mk.injEq] at h
        obtain ⟨rfl, rfl⟩ := h
        obtain ⟨rfl, ht⟩ := hc
        conv_lhs => rw [← List.take_append_drop 2 rest]
        rw [ht]
        rfl
      · rw [if_neg hc] at h
        rw [Option.map_eq_some'] at h
        obtain ⟨p, hp, hpe⟩ := h
        simp only [Prod.mk.injEq] at hpe
        obtain ⟨rfl, rfl⟩ := hpe
        rw [List.cons_append, List.cons_append, ← ih p.1 p.2 hp]

theorem splitAtFence_length {l x y : List Char} (h : splitAtFence l = some (x, y)) :
    y.length + 3 ≤ l.length := by
  have he := splitAtFence_eq l x y h
  rw [he]
  simp [List.length_append]

/-- Every block reported by the regex scan occurs in the text, in scan
order. -/
theorem scanBlocks_inText : ∀ (fuel : Nat) (s : List Char), s.length < fuel →
    BlocksInText (scanBlocks fuel s) s := by
  intro fuel
  induction fuel with
  | zero => intro s h; omega
  | succ f ih =>
      intro s hs
      cases s with
      | nil => simp [scanBlocks, BlocksInText]
      | cons c rest =>
          rw [scanBlocks]
          dsimp only
          by_cases hfence : c = '`' ∧ rest.take 2 = ['`', '`']
          · rw [if_pos hfence]
            split
            · rename_i body0 heq
              split
              · rename_i code after2 hsf
                set w := (rest.drop 2).takeWhile isWordChar with hw_def
                have hbody : body0 = code ++ "```".data ++ after2 :=
                  splitAtFence_eq _ _ _ hsf
                have hl2 : 2 ≤ rest.length := by
                  have hlt := congrArg List.length hfence.2
                  simp [List.length_take] at hlt
                  omega
                have hrest : rest = '`' :: '`' :: rest.drop 2 := by
                  conv_lhs => rw [← List.take_append_drop 2 rest]
                  rw [hfence.2]
                  rfl
                have hdrop : rest.drop 2 = w ++ '\n' :: body0 := by
                  conv_lhs => rw [← List.takeWhile_append_dropWhile isWordChar (rest.drop 2)]
                  rw [heq]
                have hlen : after2.length < f := by
                  have h3 := splitAtFence_length hsf
                  have h4 : rest.length = 2 + (rest.drop 2).length := by
                    simp [List.length_drop]
                    omega
                  have h5 : (rest.drop 2).length = w.length + (1 + body0.length) := by
                    conv_lhs => rw [hdrop]
                    simp [List.length_append]
                    omega
                  simp only [List.length_cons] at hs
                  omega
                have hw : ((if w = [] then none else some w).getD ([] : List Char)) = w := by
                  by_cases hwe : w = [] <;> simp [hwe]
                refine ⟨[], after2, ?_, ih after2 hlen⟩
                rw [List.nil_append, hfence.1]
                conv_lhs => rw [hrest, hdrop, hbody]
                rw [blockChars, hw]
                simp [List.append_assoc]
              · rename_i hsf
                exact BlocksInText.prepend [c]
                  (ih rest (by simp only [List.length_cons] at hs; omega))
            · rename_i heq
              exact BlocksInText.prepend [c]
                (ih rest (by simp only [List.length_cons] at hs; omega))
          · rw [if_neg hfence]
            exact BlocksInText.prepend [c]
              (ih rest (by simp only [List.length_cons] at hs; omega))

/-- The push-if loop over the scanned blocks equals filtering then mapping. -/
theorem createFile_foldl (bs : List (Option String × String)) :
    ∀ acc, bs.foldl (fun acc b =>
        if 50 < b.2.length ∧ b.1.isSome then acc ++ [mkCreateFileAction b] else acc) acc
      = acc ++ ((bs.filter fun b => decide (50 < b.2.length) && b.1.isSome).map
          mkCreateFileAction) := by
  induction bs with
  | nil => intro acc; simp
  | cons b bs' ih =>
      intro acc
      rw [List.foldl_cons]
      by_cases hb : 50 < b.2.length ∧ b.1.isSome
      · rw [if_pos hb, ih, List.filter_cons_of_pos (by simp [hb.1, hb.2]), List.map_cons]
        simp
      · rw [if_neg hb, ih, List.filter_cons_of_neg (by simpa using hb)]

/-- C8: `extractActions` yields exactly one `create_file` action (carrying the
code and language) per scanned fenced block that has a language tag and more
than 50 characters of code, in scan order, followed by a `create_spec` action
with an empty payload exactly when the text mentions both "create" and "spec"
case-insensitively; and the blocks those actions come from occur in the text
in that order. -/
theorem extractActions_spec (content : String) :
    extractActions content
      = ((codeBlocks content).filter fun b => decide (50 < b.2.length) && b.1.isSome).map
          mkCreateFileAction
        ++ (if mentionsCreateSpec content then
              [{ type := ActionType.create_spec, payload := ActionPayload.empty,
                 description := "Create a new feature spec" }] else [])
    ∧ ((codeBlocks content).filter fun b => decide (50 < b.2.length) && b.1.isSome)
        = ((scanBlocks (content.length + 1) content.data).filter
              fun b => decide (50 < b.2.length) && b.1.isSome).map
            (fun b => (b.1.map String.mk, String.mk b.2))
    ∧ BlocksInText ((scanBlocks (content.length + 1) content.data).filter
          fun b => decide (50 < b.2.length) && b.1.isSome) content.data := by
  refine ⟨?_, ?_, ?_⟩
  · rw [extractActions]
    rw [createFile_foldl]
    by_cases hspec : mentionsCreateSpec content
    · simp [hspec]
    · simp [hspec]
  · rw [codeBlocks, List.filter_map]
    have hcomp : ((fun b : Option String × String => decide (50 < b.2.length) && b.1.isSome)
          ∘ (fun b : Option (List Char) × List Char => (b.1.map String.mk, String.mk b.2)))
        = (fun b : Option (List Char) × List Char
            => decide (50 < b.2.length) && b.1.isSome) := by
      funext b
      cases hb : b.1 <;> simp [Function.comp, hb, String.length]
    rw [hcomp]
  · exact BlocksInText.filter _ _ _
      (scanBlocks_inText (content.length + 1) content.data (Nat.lt_succ_self _))

end LocalLLM
